import Mathlib

/-!
Verification of the d5 dynamic-address registry against its specification.

The development shallowly embeds the two Rust source files (`src/main.rs`,
`src/id.rs`).  Rust strings are modelled as `List Char`; the bytes handled by
`base64` and UTF-8 encoding are modelled as `Nat` values below 256.  The
`HashMap<String, String>` behind the `Arc<Mutex<..>>` is modelled
observationally as a function from keys to optional values, and the mutex is
modelled by an explicit `lockOk` flag: `lockOk = false` is the poisoned-lock
case in which every `.lock()` call fails.
-/

namespace D5

/-- Rust strings are modelled as lists of unicode scalar values. -/
abbrev Str := List Char

/-- `char::is_whitespace` from Rust: the Unicode `White_Space` property. -/
def rustIsWhitespace (c : Char) : Bool :=
  let n := c.toNat
  (0x09 ≤ n && n ≤ 0x0D) || n == 0x20 || n == 0x85 || n == 0xA0 ||
  n == 0x1680 || (0x2000 ≤ n && n ≤ 0x200A) || n == 0x2028 || n == 0x2029 ||
  n == 0x202F || n == 0x205F || n == 0x3000

/-- `str::trim_start`: drop leading whitespace. -/
def trimStartL (l : Str) : Str := l.dropWhile rustIsWhitespace

/-- `str::trim_end`: drop trailing whitespace. -/
def trimEndL (l : Str) : Str := (l.reverse.dropWhile rustIsWhitespace).reverse

/-- `str::trim`: drop whitespace at both ends. -/
def rustTrim (l : Str) : Str := trimEndL (trimStartL l)

/-- `s.trim_start_matches("Basic ")` from `Id::from_basic`: repeatedly strip
the literal scheme token from the front. -/
def stripBasics : Str → Str
  | 'B' :: 'a' :: 's' :: 'i' :: 'c' :: ' ' :: rest => stripBasics rest
  | l => l

/-- `str::split(':')` for the two-part credential rule: splitting on every
`':'` occurrence, keeping empty parts (Rust semantics for a char pattern). -/
def splitColon : Str → List Str
  | [] => [[]]
  | c :: t =>
    if c = ':' then [] :: splitColon t
    else
      match splitColon t with
      | [] => [[c]]
      | h :: r => (c :: h) :: r

/-- Number of `':'` characters in a string. -/
def countColon : Str → Nat
  | [] => 0
  | c :: t => (if c = ':' then 1 else 0) + countColon t

/-! ### base64 (the `base64` crate's STANDARD alphabet with `=` padding) -/

/-- The standard base64 alphabet. -/
def b64chars : Str :=
  "ABCDEFGHIJKLMNOPQRSTUVWXYZabcdefghijklmnopqrstuvwxyz0123456789+/".data

/-- Symbol for a 6-bit group. -/
def b64alpha (n : Nat) : Char := b64chars.getD n 'A'

/-- Position of a char in a list, or `none`. -/
def idxFrom : Str → Char → Nat → Option Nat
  | [], _, _ => none
  | a :: t, c, i => if a = c then some i else idxFrom t c (i + 1)

/-- Inverse alphabet lookup: `none` for a char outside the alphabet
(`'='` included). -/
def b64index (c : Char) : Option Nat := idxFrom b64chars c 0

/-- `base64::encode` on a byte sequence: 3-byte groups to 4 symbols, the final
partial group padded with `'='`. -/
def base64Encode : List Nat → Str
  | [] => []
  | [b0] => [b64alpha (b0 / 4), b64alpha (b0 % 4 * 16), '=', '=']
  | [b0, b1] =>
      [b64alpha (b0 / 4), b64alpha (b0 % 4 * 16 + b1 / 16),
       b64alpha (b1 % 16 * 4), '=']
  | b0 :: b1 :: b2 :: rest =>
      b64alpha (b0 / 4) :: b64alpha (b0 % 4 * 16 + b1 / 16) ::
      b64alpha (b1 % 16 * 4 + b2 / 64) :: b64alpha (b2 % 64) ::
      base64Encode rest

/-- `base64::decode` (the pre-0.21 crate): 4 symbols to a 3-byte group.
`'='` padding is allowed only in the final group, and an unpadded final
group of 2 or 3 symbols is also accepted (the crate only rejects a length
`≡ 1 (mod 4)`); an invalid symbol or set trailing bits is an error.
Failure is `none`, modelling `Err(DecodeError)`. -/
def base64Decode : Str → Option (List Nat)
  | [] => some []
  | c0 :: c1 :: c2 :: c3 :: rest =>
    match b64index c0, b64index c1 with
    | some n0, some n1 =>
      if c2 = '=' then
        if c3 = '=' ∧ rest = [] ∧ n1 % 16 = 0 then some [n0 * 4 + n1 / 16]
        else none
      else
        match b64index c2 with
        | some n2 =>
          if c3 = '=' then
            if rest = [] ∧ n2 % 4 = 0 then
              some [n0 * 4 + n1 / 16, n1 % 16 * 16 + n2 / 4]
            else none
          else
            match b64index c3 with
            | some n3 =>
              (base64Decode rest).map
                (fun bs => (n0 * 4 + n1 / 16) :: (n1 % 16 * 16 + n2 / 4) ::
                           (n2 % 4 * 64 + n3) :: bs)
            | none => none
        | none => none
    | _, _ => none
  | [_] => none
  | [c0, c1] =>
    match b64index c0, b64index c1 with
    | some n0, some n1 =>
      if n1 % 16 = 0 then some [n0 * 4 + n1 / 16] else none
    | _, _ => none
  | [c0, c1, c2] =>
    match b64index c0, b64index c1, b64index c2 with
    | some n0, some n1, some n2 =>
      if n2 % 4 = 0 then some [n0 * 4 + n1 / 16, n1 % 16 * 16 + n2 / 4]
      else none
    | _, _, _ => none

/-! ### UTF-8 (Rust `String` bytes and `String::from_utf8_lossy`) -/

/-- UTF-8 bytes of one unicode scalar value. -/
def utf8Bytes (c : Char) : List Nat :=
  let n := c.toNat
  if n < 0x80 then [n]
  else if n < 0x800 then [0xC0 + n / 64, 0x80 + n % 64]
  else if n < 0x10000 then
    [0xE0 + n / 4096, 0x80 + n / 64 % 64, 0x80 + n % 64]
  else
    [0xF0 + n / 262144, 0x80 + n / 4096 % 64, 0x80 + n / 64 % 64,
     0x80 + n % 64]

/-- The bytes of a Rust `String` (UTF-8). -/
def utf8Encode : Str → List Nat
  | [] => []
  | c :: t => utf8Bytes c ++ utf8Encode t

/-- The replacement character U+FFFD emitted by `from_utf8_lossy`. -/
def replChar : Char := Char.ofNat 0xFFFD

/-- A UTF-8 continuation byte. -/
abbrev utf8Cont (b : Nat) : Prop := 0x80 ≤ b ∧ b < 0xC0

/-- Valid second byte after a 3- or 4-byte lead, per the WHATWG ranges Rust
uses: lead `E0` takes `A0..BF` (no overlong forms), `ED` takes `80..9F` (no
surrogates), `F0` takes `90..BF`, `F4` takes `80..8F` (no values above
U+10FFFF); every other lead takes any continuation byte. -/
abbrev utf8Snd (b0 b1 : Nat) : Prop :=
  (b0 ≠ 0xE0 ∨ 0xA0 ≤ b1) ∧ (b0 ≠ 0xED ∨ b1 < 0xA0) ∧
  (b0 ≠ 0xF0 ∨ 0x90 ≤ b1) ∧ (b0 ≠ 0xF4 ∨ b1 < 0x90) ∧ utf8Cont b1

/-- One step of lossy UTF-8 decoding, as `String::from_utf8_lossy` does it:
decode one well-formed sequence exactly, or replace the maximal subpart of an
ill-formed sequence (the longest valid prefix of a sequence, at least the
lead byte) with one U+FFFD, resuming at the first offending byte. -/
def utf8Step (b0 : Nat) (t0 : List Nat) : Char × List Nat :=
  if b0 < 0x80 then (Char.ofNat b0, t0)
  else if b0 < 0xC2 then (replChar, t0)
  else if b0 < 0xE0 then
    match t0 with
    | [] => (replChar, [])
    | b1 :: t1 =>
      if utf8Cont b1 then
        (Char.ofNat ((b0 - 0xC0) * 64 + (b1 - 0x80)), t1)
      else (replChar, b1 :: t1)
  else if b0 < 0xF0 then
    match t0 with
    | [] => (replChar, [])
    | [b1] => (replChar, if utf8Snd b0 b1 then [] else [b1])
    | b1 :: b2 :: t2 =>
      if utf8Snd b0 b1 then
        if utf8Cont b2 then
          (Char.ofNat ((b0 - 0xE0) * 4096 + (b1 - 0x80) * 64 + (b2 - 0x80)),
           t2)
        else (replChar, b2 :: t2)
      else (replChar, b1 :: b2 :: t2)
  else if b0 < 0xF5 then
    match t0 with
    | [] => (replChar, [])
    | [b1] => (replChar, if utf8Snd b0 b1 then [] else [b1])
    | [b1, b2] =>
      if utf8Snd b0 b1 then (replChar, if utf8Cont b2 then [] else [b2])
      else (replChar, [b1, b2])
    | b1 :: b2 :: b3 :: t3 =>
      if utf8Snd b0 b1 then
        if utf8Cont b2 then
          if utf8Cont b3 then
            (Char.ofNat ((b0 - 0xF0) * 262144 + (b1 - 0x80) * 4096 +
                (b2 - 0x80) * 64 + (b3 - 0x80)), t3)
          else (replChar, b3 :: t3)
        else (replChar, b2 :: b3 :: t3)
      else (replChar, b1 :: b2 :: b3 :: t3)
  else (replChar, t0)

theorem utf8Step_len (b0 : Nat) (t0 : List Nat) :
    (utf8Step b0 t0).2.length ≤ t0.length := by
  unfold utf8Step
  repeat' split
  all_goals simp_all [List.length_cons]
  all_goals omega

/-- Fuel-driven driver for lossy decoding; each step consumes at least one
byte, so `fuel = l.length` always suffices. -/
def utf8DecodeGo : Nat → List Nat → Str
  | 0, _ => []
  | _ + 1, [] => []
  | fuel + 1, b0 :: t0 =>
    (utf8Step b0 t0).1 :: utf8DecodeGo fuel (utf8Step b0 t0).2

/-- `String::from_utf8_lossy`: decode well-formed UTF-8 sequences exactly
(rejecting overlong forms, surrogates and values above U+10FFFF) and replace
ill-formed bytes by U+FFFD. -/
def utf8DecodeLossy (l : List Nat) : Str := utf8DecodeGo l.length l

/-! ### The `Id` type (`src/id.rs`) -/

/-- `struct Id` from `id.rs`: decoded fields plus the derived encoded form.
Equality is the derived structural equality (`#[derive(PartialEq, Eq)]`),
over all three fields. -/
structure Id where
  user : Str
  password : Str
  encoded : Str
deriving DecidableEq

/-- `Id::new`: store the fields and derive `encoded = base64(user:password)`. -/
def Id.new (u p : Str) : Id :=
  ⟨u, p, base64Encode (utf8Encode (u ++ ':' :: p))⟩

/-- `Id::basic`: `format!("Basic {}", self.encoded)`. -/
def Id.basic (i : Id) : Str := "Basic ".data ++ i.encoded

/-- `impl fmt::Display for Id`: `"{user}:{password}"`. -/
def Id.display (i : Id) : Str := i.user ++ ':' :: i.password

/-- `TryFrom<&str> for Id`: trim, split on `':'`, demand exactly two parts.
`none` models `Err(io::Error::from(InvalidInput))`. -/
def tryFromStr (s : Str) : Option Id :=
  match splitColon (rustTrim s) with
  | [u, p] => some (Id.new u p)
  | _ => none

/-- Outcome of `Id::from_basic`, which uses `.expect(..)` internally: either a
value, or a panic (program termination) carrying the `expect` message.  A
panic is not a returned error value. -/
inductive FromBasicResult where
  | ok (i : Id)
  | panic (msg : String)
deriving DecidableEq

/-- `Id::from_basic`: trim, strip every leading `"Basic "` token, trim again,
base64-decode (`.expect("base64 decode error")`), lossy-UTF-8 decode, then
parse via `TryFrom` (`.expect("Invalid Basic Id")`). -/
def fromBasic (s : Str) : FromBasicResult :=
  let parsed := rustTrim (stripBasics (rustTrim s))
  match base64Decode parsed with
  | none => .panic "base64 decode error"
  | some bytes =>
    match tryFromStr (utf8DecodeLossy bytes) with
    | some i => .ok i
    | none => .panic "Invalid Basic Id"

/-- `FromStr for Id`: `Ok(Id::from_basic(s))` — it never produces the `Err`
case of its `Result`; any failure inside `from_basic` is a panic. -/
def fromStr (s : Str) : Option FromBasicResult := some (fromBasic s)

/-! ### The server (`src/main.rs`) -/

/-- The closed error taxonomy `enum Err` of `main.rs`. -/
inductive Err where
  | Db
  | NotFound
  | Unauthorized
deriving DecidableEq

deriving instance DecidableEq for Except

/-- The `Display` messages of `Err` (`writeln!` appends a newline; the
`NotFound` text reproduces the source bytes exactly). -/
def errMessage : Err → String
  | .Db => "Internal server error.\n"
  | .NotFound => "No IP found for that usernameâ€“password pair.\n"
  | .Unauthorized => "Unauthorized request.\n"

/-- `handle_err`: map each taxonomy member to an HTTP status and its message
(`500`, `404`, `401`). -/
def handleErr : Err → Nat × String
  | .Db => (500, errMessage .Db)
  | .NotFound => (404, errMessage .NotFound)
  | .Unauthorized => (401, errMessage .Unauthorized)

/-- The shared `HashMap<String, String>`, observationally: a map from the raw
`authorization` header string to the stored address. -/
abbrev DB := Str → Option Str

/-- The empty map the process starts with. -/
def emptyDB : DB := fun _ => none

/-- `HashMap::insert`: upsert one key. -/
def insertKV (k v : Str) (db : DB) : DB :=
  fun q => if q = k then some v else db q

/-- `HashMap::remove`: drop one key. -/
def removeKV (k : Str) (db : DB) : DB :=
  fun q => if q = k then none else db q

/-- `KEY` configuration: `env::var("KEY").map(base64::encode).map(prefix)` —
the raw `USER:PASSWORD` value is base64-encoded and prefixed with
`"Basic "`. -/
def mkKey (raw : Str) : Str := "Basic ".data ++ base64Encode (utf8Encode raw)

/-- Result of a mutating route: the typed outcome plus the registry after the
call (unchanged when the outcome is an error). -/
structure RouteOut where
  result : Except Err Str
  db : DB

/-- The GET route: look the raw `authorization` header value up in the map.
`lockOk = false` is a poisoned mutex (`.lock()` fails, mapped to `Err::Db`). -/
def getRoute (id : Str) (db : DB) (lockOk : Bool) : Except Err Str :=
  if lockOk then
    match db id with
    | some ip => .ok ip
    | none => .error .NotFound
  else .error .Db

/-- The POST route: check the optional key against the raw header, then
insert the forwarded address under the raw header and echo the address. -/
def postRoute (ip id : Str) (key : Option Str) (db : DB) (lockOk : Bool) :
    RouteOut :=
  if key.isSome ∧ key ≠ some id then ⟨.error .Unauthorized, db⟩
  else if lockOk then ⟨.ok ip, insertKV id ip db⟩
  else ⟨.error .Db, db⟩

/-- The DELETE route: remove the raw header key; on success the body is
`"IP deleted for ID: "` followed by the raw header value. -/
def deleteRoute (id : Str) (db : DB) (lockOk : Bool) : RouteOut :=
  if lockOk then
    match db id with
    | some _ => ⟨.ok ("IP deleted for ID: ".data ++ id), removeKV id db⟩
    | none => ⟨.error .NotFound, db⟩
  else ⟨.error .Db, db⟩

/-! ### Whitespace and trimming lemmas -/

theorem colon_not_ws : rustIsWhitespace ':' = false := by decide

theorem dropWhile_eq_self_of_none (l : Str)
    (h : ∀ c ∈ l, rustIsWhitespace c = false) :
    l.dropWhile rustIsWhitespace = l := by
  cases l with
  | nil => rfl
  | cons c t => simp [List.dropWhile_cons, h c (by simp)]

theorem trimStartL_cons (c : Char) (t : Str) (h : rustIsWhitespace c = false) :
    trimStartL (c :: t) = c :: t := by
  simp [trimStartL, List.dropWhile_cons, h]

theorem rustTrim_eq_self_of_none (l : Str)
    (h : ∀ c ∈ l, rustIsWhitespace c = false) :
    rustTrim l = l := by
  unfold rustTrim trimStartL trimEndL
  rw [dropWhile_eq_self_of_none l h]
  rw [dropWhile_eq_self_of_none l.reverse (by simpa using h)]
  exact l.reverse_reverse

theorem dropWhile_append_of_ne_nil (l1 l2 : Str)
    (h : l1.dropWhile rustIsWhitespace ≠ []) :
    (l1 ++ l2).dropWhile rustIsWhitespace =
      l1.dropWhile rustIsWhitespace ++ l2 := by
  induction l1 with
  | nil => exact absurd rfl h
  | cons c t ih =>
    by_cases hc : rustIsWhitespace c
    · rw [List.cons_append, List.dropWhile_cons, if_pos hc]
      rw [List.dropWhile_cons, if_pos hc] at h ⊢
      exact ih h
    · simp [List.dropWhile_cons, hc]

theorem trimEndL_append (a b : Str) (h : trimEndL b ≠ []) :
    trimEndL (a ++ b) = a ++ trimEndL b := by
  unfold trimEndL at h ⊢
  have hb : b.reverse.dropWhile rustIsWhitespace ≠ [] := by
    intro hx; rw [hx] at h; exact h rfl
  rw [List.reverse_append, dropWhile_append_of_ne_nil _ _ hb,
    List.reverse_append, List.reverse_reverse]

/-! ### `stripBasics` lemmas -/

theorem stripBasics_of_no_space (l : Str) (h : ' ' ∉ l) : stripBasics l = l := by
  rw [stripBasics.eq_def]
  split
  · rename_i rest _
    exact absurd (by simp) h
  · rfl

theorem stripBasics_basic_append (l : Str) :
    stripBasics ("Basic ".data ++ l) = stripBasics l := rfl

/-! ### Colon counting and splitting lemmas -/

theorem countColon_append (a b : Str) :
    countColon (a ++ b) = countColon a + countColon b := by
  induction a with
  | nil => simp [countColon]
  | cons c t ih => simp [countColon, ih]; omega

theorem countColon_reverse (l : Str) : countColon l.reverse = countColon l := by
  induction l with
  | nil => rfl
  | cons c t ih =>
    simp [countColon, List.reverse_cons, countColon_append, ih]
    omega

theorem countColon_dropWhile (l : Str) :
    countColon (l.dropWhile rustIsWhitespace) = countColon l := by
  induction l with
  | nil => rfl
  | cons c t ih =>
    by_cases hc : rustIsWhitespace c
    · rw [List.dropWhile_cons, if_pos hc, ih]
      have hcc : c ≠ ':' := by
        intro h; rw [h] at hc; exact absurd hc (by decide)
      simp [countColon, hcc]
    · rw [List.dropWhile_cons, if_neg hc]

theorem countColon_rustTrim (l : Str) : countColon (rustTrim l) = countColon l := by
  unfold rustTrim trimStartL trimEndL
  rw [countColon_reverse, countColon_dropWhile, countColon_reverse,
    countColon_dropWhile]

theorem splitColon_ne_nil (l : Str) : splitColon l ≠ [] := by
  cases l with
  | nil => simp [splitColon]
  | cons c t =>
    unfold splitColon
    split
    · simp
    · split <;> simp

theorem splitColon_length (l : Str) :
    (splitColon l).length = countColon l + 1 := by
  induction l with
  | nil => rfl
  | cons c t ih =>
    by_cases hc : c = ':'
    · simp [splitColon, countColon, hc, ih]; omega
    · unfold splitColon
      rw [if_neg hc]
      rcases hsp : splitColon t with _ | ⟨h, r⟩
      · exact absurd hsp (splitColon_ne_nil t)
      · rw [hsp] at ih
        simp [countColon, hc] at ih ⊢
        omega

theorem splitColon_no_colon (l : Str) (h : ':' ∉ l) : splitColon l = [l] := by
  induction l with
  | nil => rfl
  | cons c t ih =>
    have hc : c ≠ ':' := fun hx => h (by simp [hx])
    have ht : ':' ∉ t := fun hx => h (by simp [hx])
    unfold splitColon
    rw [if_neg hc, ih ht]

theorem splitColon_two (u p : Str) (hu : ':' ∉ u) (hp : ':' ∉ p) :
    splitColon (u ++ ':' :: p) = [u, p] := by
  induction u with
  | nil => simp [splitColon, splitColon_no_colon p hp]
  | cons c t ih =>
    have hc : c ≠ ':' := fun hx => hu (by simp [hx])
    have ht : ':' ∉ t := fun hx => hu (by simp [hx])
    rw [List.cons_append]
    unfold splitColon
    rw [if_neg hc, ih ht]

/-! ### base64 lemmas -/

theorem b64index_alpha_fin :
    ∀ n : Fin 64, b64index (b64alpha n.val) = some n.val := by decide

theorem b64index_alpha (n : Nat) (h : n < 64) :
    b64index (b64alpha n) = some n := b64index_alpha_fin ⟨n, h⟩

theorem b64alpha_ne_pad_fin : ∀ n : Fin 64, b64alpha n.val ≠ '=' := by decide

theorem b64alpha_ne_pad (n : Nat) (h : n < 64) : b64alpha n ≠ '=' :=
  b64alpha_ne_pad_fin ⟨n, h⟩

theorem b64alpha_not_ws_fin :
    ∀ n : Fin 64, rustIsWhitespace (b64alpha n.val) = false := by decide

theorem b64alpha_not_ws (n : Nat) (h : n < 64) :
    rustIsWhitespace (b64alpha n) = false := b64alpha_not_ws_fin ⟨n, h⟩

theorem base64Encode_chars (bs : List Nat) (hb : ∀ b ∈ bs, b < 256) :
    ∀ c ∈ base64Encode bs, (∃ n, n < 64 ∧ c = b64alpha n) ∨ c = '=' := by
  induction bs using base64Encode.induct with
  | case1 => simp [base64Encode]
  | case2 b0 =>
    have h0 : b0 < 256 := hb b0 (by simp)
    intro c hc
    simp only [base64Encode, List.mem_cons, List.not_mem_nil, or_false] at hc
    rcases hc with h | h | h | h
    · exact Or.inl ⟨b0 / 4, by omega, h⟩
    · exact Or.inl ⟨b0 % 4 * 16, by omega, h⟩
    · exact Or.inr h
    · exact Or.inr h
  | case3 b0 b1 =>
    have h0 : b0 < 256 := hb b0 (by simp)
    have h1 : b1 < 256 := hb b1 (by simp)
    intro c hc
    simp only [base64Encode, List.mem_cons, List.not_mem_nil, or_false] at hc
    rcases hc with h | h | h | h
    · exact Or.inl ⟨b0 / 4, by omega, h⟩
    · exact Or.inl ⟨b0 % 4 * 16 + b1 / 16, by omega, h⟩
    · exact Or.inl ⟨b1 % 16 * 4, by omega, h⟩
    · exact Or.inr h
  | case4 b0 b1 b2 rest ih =>
    have h0 : b0 < 256 := hb b0 (by simp)
    have h1 : b1 < 256 := hb b1 (by simp)
    have h2 : b2 < 256 := hb b2 (by simp)
    have hrest : ∀ b ∈ rest, b < 256 := fun b hbr => hb b (by simp [hbr])
    intro c hc
    simp only [base64Encode, List.mem_cons] at hc
    rcases hc with h | h | h | h | h
    · exact Or.inl ⟨b0 / 4, by omega, h⟩
    · exact Or.inl ⟨b0 % 4 * 16 + b1 / 16, by omega, h⟩
    · exact Or.inl ⟨b1 % 16 * 4 + b2 / 64, by omega, h⟩
    · exact Or.inl ⟨b2 % 64, by omega, h⟩
    · exact ih hrest c h

theorem base64Encode_ne_nil (bs : List Nat) (h : bs ≠ []) :
    base64Encode bs ≠ [] := by
  rcases bs with _ | ⟨b0, _ | ⟨b1, _ | ⟨b2, rest⟩⟩⟩ <;> simp [base64Encode] at h ⊢

theorem packDiv (k x y : Nat) (hk : 0 < k) (hy : y < k) : (x * k + y) / k = x := by
  rw [Nat.add_comm, Nat.add_mul_div_right _ _ hk, Nat.div_eq_of_lt hy,
    Nat.zero_add]

theorem packMod (k x y : Nat) (hk : 0 < k) (hy : y < k) : (x * k + y) % k = y := by
  rw [Nat.add_comm, Nat.add_mul_mod_self_right, Nat.mod_eq_of_lt hy]

theorem packDiv0 (k x : Nat) (hk : 0 < k) : x * k / k = x := by
  have := packDiv k x 0 hk hk
  simpa using this

theorem packMod0 (k x : Nat) (hk : 0 < k) : x * k % k = 0 := by
  have := packMod k x 0 hk hk
  simpa using this

theorem base64_roundtrip (bs : List Nat) (hb : ∀ b ∈ bs, b < 256) :
    base64Decode (base64Encode bs) = some bs := by
  induction bs using base64Encode.induct with
  | case1 => rfl
  | case2 b0 =>
    have h0 : b0 < 256 := hb b0 (by simp)
    show base64Decode
      [b64alpha (b0 / 4), b64alpha (b0 % 4 * 16), '=', '='] = some [b0]
    simp only [base64Decode, b64index_alpha (b0 / 4) (by omega),
      b64index_alpha (b0 % 4 * 16) (by omega)]
    have e : b0 % 4 * 16 % 16 = 0 := packMod0 16 _ (by norm_num)
    have d1 : b0 % 4 * 16 / 16 = b0 % 4 := packDiv0 16 _ (by norm_num)
    simp [e, d1]
    omega
  | case3 b0 b1 =>
    have h0 : b0 < 256 := hb b0 (by simp)
    have h1 : b1 < 256 := hb b1 (by simp)
    show base64Decode
      [b64alpha (b0 / 4), b64alpha (b0 % 4 * 16 + b1 / 16),
       b64alpha (b1 % 16 * 4), '='] = some [b0, b1]
    simp only [base64Decode, b64index_alpha (b0 / 4) (by omega),
      b64index_alpha (b0 % 4 * 16 + b1 / 16) (by omega),
      b64index_alpha (b1 % 16 * 4) (by omega)]
    have e : b1 % 16 * 4 % 4 = 0 := packMod0 4 _ (by norm_num)
    have d1 : (b0 % 4 * 16 + b1 / 16) / 16 = b0 % 4 :=
      packDiv 16 _ _ (by norm_num) (by omega)
    have d2 : (b0 % 4 * 16 + b1 / 16) % 16 = b1 / 16 :=
      packMod 16 _ _ (by norm_num) (by omega)
    have d3 : b1 % 16 * 4 / 4 = b1 % 16 := packDiv0 4 _ (by norm_num)
    rw [if_neg (b64alpha_ne_pad (b1 % 16 * 4) (by omega))]
    simp [e, d1, d2, d3]
    omega
  | case4 b0 b1 b2 rest ih =>
    have h0 : b0 < 256 := hb b0 (by simp)
    have h1 : b1 < 256 := hb b1 (by simp)
    have h2 : b2 < 256 := hb b2 (by simp)
    have hrest : ∀ b ∈ rest, b < 256 := fun b hbr => hb b (by simp [hbr])
    show base64Decode
      (b64alpha (b0 / 4) :: b64alpha (b0 % 4 * 16 + b1 / 16) ::
       b64alpha (b1 % 16 * 4 + b2 / 64) :: b64alpha (b2 % 64) ::
       base64Encode rest) = some (b0 :: b1 :: b2 :: rest)
    simp only [base64Decode, b64index_alpha (b0 / 4) (by omega),
      b64index_alpha (b0 % 4 * 16 + b1 / 16) (by omega),
      b64index_alpha (b1 % 16 * 4 + b2 / 64) (by omega),
      b64index_alpha (b2 % 64) (by omega)]
    rw [if_neg (b64alpha_ne_pad (b1 % 16 * 4 + b2 / 64) (by omega)),
      if_neg (b64alpha_ne_pad (b2 % 64) (by omega)), ih hrest]
    have d1 : (b0 % 4 * 16 + b1 / 16) / 16 = b0 % 4 :=
      packDiv 16 _ _ (by norm_num) (by omega)
    have d2 : (b0 % 4 * 16 + b1 / 16) % 16 = b1 / 16 :=
      packMod 16 _ _ (by norm_num) (by omega)
    have d3 : (b1 % 16 * 4 + b2 / 64) / 4 = b1 % 16 :=
      packDiv 4 _ _ (by norm_num) (by omega)
    have d4 : (b1 % 16 * 4 + b2 / 64) % 4 = b2 / 64 :=
      packMod 4 _ _ (by norm_num) (by omega)
    simp [d1, d2, d3, d4]
    omega

/-! ### UTF-8 lemmas -/

theorem char_range (c : Char) :
    c.toNat < 0xD800 ∨ (0xDFFF < c.toNat ∧ c.toNat < 0x110000) := c.valid

theorem utf8Bytes_ne_nil (c : Char) : utf8Bytes c ≠ [] := by
  simp only [utf8Bytes]
  split_ifs <;> simp

theorem utf8Bytes_lt (c : Char) : ∀ b ∈ utf8Bytes c, b < 256 := by
  have hr := char_range c
  simp only [utf8Bytes]
  split_ifs with h1 h2 h3 <;> intro b hb <;>
    simp only [List.mem_cons, List.not_mem_nil, or_false] at hb <;>
    rcases hb with rfl | rfl | rfl | rfl | h <;> omega

theorem utf8Encode_lt (l : Str) : ∀ b ∈ utf8Encode l, b < 256 := by
  induction l with
  | nil => simp [utf8Encode]
  | cons c t ih =>
    intro b hb
    rw [utf8Encode, List.mem_append] at hb
    rcases hb with h | h
    · exact utf8Bytes_lt c b h
    · exact ih b h

theorem utf8Encode_ne_nil (l : Str) (h : l ≠ []) : utf8Encode l ≠ [] := by
  cases l with
  | nil => exact absurd rfl h
  | cons c t =>
    rw [utf8Encode]
    intro hx
    rcases List.append_eq_nil.mp hx with ⟨h1, _⟩
    exact utf8Bytes_ne_nil c h1

theorem utf8Step_ascii (b0 : Nat) (t : List Nat) (h : b0 < 0x80) :
    utf8Step b0 t = (Char.ofNat b0, t) := by
  unfold utf8Step
  rw [if_pos h]

theorem utf8Step_two (n : Nat) (t : List Nat) (h1 : 0x80 ≤ n) (h2 : n < 0x800) :
    utf8Step (0xC0 + n / 64) ((0x80 + n % 64) :: t) = (Char.ofNat n, t) := by
  unfold utf8Step
  rw [if_neg (by omega), if_neg (by omega), if_pos (by omega)]
  simp only []
  rw [if_pos (show utf8Cont (0x80 + n % 64) by
    simp only [utf8Cont]; omega)]
  have e : (0xC0 + n / 64 - 0xC0) * 64 + (0x80 + n % 64 - 0x80) = n := by omega
  rw [e]

theorem utf8Step_three (n : Nat) (t : List Nat) (h1 : 0x800 ≤ n)
    (h2 : n < 0x10000) (h3 : n < 0xD800 ∨ 0xDFFF < n) :
    utf8Step (0xE0 + n / 4096)
      ((0x80 + n / 64 % 64) :: (0x80 + n % 64) :: t) = (Char.ofNat n, t) := by
  unfold utf8Step
  rw [if_neg (by omega), if_neg (by omega), if_neg (by omega), if_pos (by omega)]
  simp only []
  rw [if_pos (show utf8Snd (0xE0 + n / 4096) (0x80 + n / 64 % 64) by
        simp only [utf8Snd, utf8Cont]; omega),
    if_pos (show utf8Cont (0x80 + n % 64) by simp only [utf8Cont]; omega)]
  have e : (0xE0 + n / 4096 - 0xE0) * 4096 + (0x80 + n / 64 % 64 - 0x80) * 64 +
      (0x80 + n % 64 - 0x80) = n := by omega
  rw [e]

theorem utf8Step_four (n : Nat) (t : List Nat) (h1 : 0x10000 ≤ n)
    (h2 : n < 0x110000) :
    utf8Step (0xF0 + n / 262144)
      ((0x80 + n / 4096 % 64) :: (0x80 + n / 64 % 64) :: (0x80 + n % 64) :: t) =
      (Char.ofNat n, t) := by
  unfold utf8Step
  rw [if_neg (by omega), if_neg (by omega), if_neg (by omega),
    if_neg (by omega), if_pos (by omega)]
  simp only []
  rw [if_pos (show utf8Snd (0xF0 + n / 262144) (0x80 + n / 4096 % 64) by
        simp only [utf8Snd, utf8Cont]; omega),
    if_pos (show utf8Cont (0x80 + n / 64 % 64) by
      simp only [utf8Cont]; omega),
    if_pos (show utf8Cont (0x80 + n % 64) by simp only [utf8Cont]; omega)]
  have e : (0xF0 + n / 262144 - 0xF0) * 262144 +
      (0x80 + n / 4096 % 64 - 0x80) * 4096 +
      (0x80 + n / 64 % 64 - 0x80) * 64 + (0x80 + n % 64 - 0x80) = n := by omega
  rw [e]

theorem utf8DecodeGo_nil (fuel : Nat) : utf8DecodeGo fuel [] = [] := by
  cases fuel <;> rfl

theorem utf8DecodeGo_encode (cs : Str) : ∀ fuel, (utf8Encode cs).length ≤ fuel →
    utf8DecodeGo fuel (utf8Encode cs) = cs := by
  induction cs with
  | nil => intro fuel _; exact utf8DecodeGo_nil fuel
  | cons c cs ih =>
    intro fuel h
    have hr := char_range c
    rw [utf8Encode] at h ⊢
    by_cases h1 : c.toNat < 0x80
    · have hb : utf8Bytes c = [c.toNat] := by
        simp only [utf8Bytes]; rw [if_pos h1]
      rw [hb, List.singleton_append] at h ⊢
      rw [List.length_cons] at h
      obtain ⟨f, rfl⟩ : ∃ f, fuel = f + 1 := ⟨fuel - 1, by omega⟩
      simp only [utf8DecodeGo]
      rw [utf8Step_ascii _ _ h1]
      simp only [Char.ofNat_toNat]
      show c :: utf8DecodeGo f (utf8Encode cs) = c :: cs
      rw [ih f (by omega)]
    · by_cases h2 : c.toNat < 0x800
      · have hb : utf8Bytes c = [0xC0 + c.toNat / 64, 0x80 + c.toNat % 64] := by
          simp only [utf8Bytes]; rw [if_neg h1, if_pos h2]
        rw [hb] at h ⊢
        simp only [List.cons_append, List.nil_append] at h ⊢
        simp only [List.length_cons] at h
        obtain ⟨f, rfl⟩ : ∃ f, fuel = f + 1 := ⟨fuel - 1, by omega⟩
        simp only [utf8DecodeGo]
        rw [utf8Step_two _ _ (by omega) h2]
        simp only [Char.ofNat_toNat]
        show c :: utf8DecodeGo f (utf8Encode cs) = c :: cs
        rw [ih f (by omega)]
      · by_cases h3 : c.toNat < 0x10000
        · have hb : utf8Bytes c = [0xE0 + c.toNat / 4096, 0x80 + c.toNat / 64 % 64,
              0x80 + c.toNat % 64] := by
            simp only [utf8Bytes]; rw [if_neg h1, if_neg h2, if_pos h3]
          rw [hb] at h ⊢
          simp only [List.cons_append, List.nil_append] at h ⊢
          simp only [List.length_cons] at h
          obtain ⟨f, rfl⟩ : ∃ f, fuel = f + 1 := ⟨fuel - 1, by omega⟩
          simp only [utf8DecodeGo]
          rw [utf8Step_three _ _ (by omega) h3 (by omega)]
          simp only [Char.ofNat_toNat]
          show c :: utf8DecodeGo f (utf8Encode cs) = c :: cs
          rw [ih f (by omega)]
        · have hb : utf8Bytes c = [0xF0 + c.toNat / 262144,
              0x80 + c.toNat / 4096 % 64, 0x80 + c.toNat / 64 % 64,
              0x80 + c.toNat % 64] := by
            simp only [utf8Bytes]; rw [if_neg h1, if_neg h2, if_neg h3]
          rw [hb] at h ⊢
          simp only [List.cons_append, List.nil_append] at h ⊢
          simp only [List.length_cons] at h
          obtain ⟨f, rfl⟩ : ∃ f, fuel = f + 1 := ⟨fuel - 1, by omega⟩
          simp only [utf8DecodeGo]
          rw [utf8Step_four _ _ (by omega) (by omega)]
          simp only [Char.ofNat_toNat]
          show c :: utf8DecodeGo f (utf8Encode cs) = c :: cs
          rw [ih f (by omega)]

theorem utf8_roundtrip (cs : Str) : utf8DecodeLossy (utf8Encode cs) = cs :=
  utf8DecodeGo_encode cs (utf8Encode cs).length (Nat.le_refl _)

/-! ### The round trip of `Id::from_basic` after `Id::basic` -/

theorem trimEndL_eq_self_of_none (l : Str)
    (h : ∀ c ∈ l, rustIsWhitespace c = false) : trimEndL l = l := by
  unfold trimEndL
  rw [dropWhile_eq_self_of_none l.reverse (by simpa using h)]
  exact l.reverse_reverse

theorem trim_basic_tok (tok : Str) (hne : tok ≠ [])
    (hws : ∀ c ∈ tok, rustIsWhitespace c = false) :
    rustTrim ("Basic ".data ++ tok) = "Basic ".data ++ tok := by
  have hstart : trimStartL ("Basic ".data ++ tok) = "Basic ".data ++ tok := by
    show trimStartL ('B' :: ("asic ".data ++ tok)) = 'B' :: ("asic ".data ++ tok)
    exact trimStartL_cons 'B' _ (by decide)
  have hendtok : trimEndL tok = tok := trimEndL_eq_self_of_none tok hws
  have hend : trimEndL ("Basic ".data ++ tok) = "Basic ".data ++ trimEndL tok :=
    trimEndL_append _ _ (by rw [hendtok]; exact hne)
  unfold rustTrim
  rw [hstart, hend, hendtok]

theorem tryFromStr_two (u p : Str) (hu : ':' ∉ u) (hp : ':' ∉ p)
    (ht : rustTrim (u ++ ':' :: p) = u ++ ':' :: p) :
    tryFromStr (u ++ ':' :: p) = some (Id.new u p) := by
  unfold tryFromStr
  rw [ht, splitColon_two u p hu hp]

theorem fromBasic_basic (u p : Str) (hu : ':' ∉ u) (hp : ':' ∉ p)
    (ht : rustTrim (u ++ ':' :: p) = u ++ ':' :: p) :
    fromBasic (Id.new u p).basic = .ok (Id.new u p) := by
  have hwne : u ++ ':' :: p ≠ [] := by cases u <;> simp
  have hbs := utf8Encode_lt (u ++ ':' :: p)
  have hbne : utf8Encode (u ++ ':' :: p) ≠ [] := utf8Encode_ne_nil _ hwne
  have htokne : base64Encode (utf8Encode (u ++ ':' :: p)) ≠ [] :=
    base64Encode_ne_nil _ hbne
  have htokws : ∀ c ∈ base64Encode (utf8Encode (u ++ ':' :: p)),
      rustIsWhitespace c = false := by
    intro c hc
    rcases base64Encode_chars _ hbs c hc with ⟨n, hn, rfl⟩ | rfl
    · exact b64alpha_not_ws n hn
    · decide
  have hsp : ' ' ∉ base64Encode (utf8Encode (u ++ ':' :: p)) := by
    intro hmem
    exact absurd (htokws ' ' hmem) (by decide)
  show fromBasic ("Basic ".data ++ base64Encode (utf8Encode (u ++ ':' :: p))) = _
  simp only [fromBasic]
  rw [trim_basic_tok _ htokne htokws, stripBasics_basic_append,
    stripBasics_of_no_space _ hsp, rustTrim_eq_self_of_none _ htokws,
    base64_roundtrip _ hbs]
  simp only []
  rw [utf8_roundtrip, tryFromStr_two u p hu hp ht]

/-! ### `from_basic` ignores one leading scheme token -/

theorem trimEndL_ne_nil (c : Char) (t : Str) (hc : rustIsWhitespace c = false) :
    trimEndL (c :: t) ≠ [] := by
  unfold trimEndL
  intro hx
  rw [List.reverse_eq_nil_iff] at hx
  rw [List.dropWhile_eq_nil_iff] at hx
  have := hx c (by simp)
  rw [hc] at this
  exact Bool.false_ne_true this

theorem fromBasic_strip (c : Char) (t : Str) (hc : rustIsWhitespace c = false) :
    fromBasic ("Basic ".data ++ c :: t) = fromBasic (c :: t) := by
  have h1 : trimStartL (c :: t) = c :: t := trimStartL_cons c t hc
  have h2 : trimEndL (c :: t) ≠ [] := trimEndL_ne_nil c t hc
  have h3 : rustTrim (c :: t) = trimEndL (c :: t) := by
    unfold rustTrim; rw [h1]
  have h4 : rustTrim ("Basic ".data ++ c :: t) =
      "Basic ".data ++ trimEndL (c :: t) := by
    have hs : trimStartL ("Basic ".data ++ c :: t) = "Basic ".data ++ c :: t := by
      show trimStartL ('B' :: ("asic ".data ++ c :: t)) =
        'B' :: ("asic ".data ++ c :: t)
      exact trimStartL_cons 'B' _ (by decide)
    unfold rustTrim
    rw [hs, trimEndL_append _ _ h2]
  simp only [fromBasic]
  rw [h3, h4, stripBasics_basic_append]

/-! ## The claims -/

/-- C1 (counterexample): the Registry is NOT keyed by decoded Identity.  The
headers `"Basic ZGVycDpmbGVycA=="` and `"Basic Basic ZGVycDpmbGVycA=="` both
decode to the Identity `derp:flerp`, yet a Publish under the first followed by
a Fetch with the second reports `NotFound`: the two requests use different
registry entries. -/
theorem c1_counterexample :
    fromBasic "Basic ZGVycDpmbGVycA==".data =
      .ok (Id.new "derp".data "flerp".data) ∧
    fromBasic "Basic Basic ZGVycDpmbGVycA==".data =
      .ok (Id.new "derp".data "flerp".data) ∧
    "Basic ZGVycDpmbGVycA==".data ≠ "Basic Basic ZGVycDpmbGVycA==".data ∧
    getRoute "Basic Basic ZGVycDpmbGVycA==".data
      (postRoute "1.2.3.4".data "Basic ZGVycDpmbGVycA==".data none emptyDB
        true).db true = .error .NotFound := by
  refine ⟨by decide, by decide, by decide, ?_⟩
  decide

/-- C1 (amended): the Registry is keyed by the raw `authorization` header
string.  A store writes exactly the entry of its raw header (overwriting any
previous address there, so the map holds at most one address per raw header),
and leaves the entry of every other raw header unchanged — even one that
decodes to the same Identity. -/
theorem c1_raw_header_keying (h1 h2 ip ip1 ip2 : Str) (db : DB) :
    postRoute ip h1 none db true = ⟨.ok ip, insertKV h1 ip db⟩ ∧
    insertKV h1 ip db h1 = some ip ∧
    insertKV h1 ip2 (insertKV h1 ip1 db) h1 = some ip2 ∧
    (h2 ≠ h1 → insertKV h1 ip db h2 = db h2) := by
  refine ⟨?_, by simp [insertKV], by simp [insertKV], ?_⟩
  · simp [postRoute]
  · intro hne
    simp [insertKV, hne]

/-- C1 (witness): the amended statement instantiated at two concrete raw
headers that decode to the same Identity. -/
theorem c1_witness :
    postRoute "1.2.3.4".data "Basic ZGVycDpmbGVycA==".data none emptyDB true =
      ⟨.ok "1.2.3.4".data,
        insertKV "Basic ZGVycDpmbGVycA==".data "1.2.3.4".data emptyDB⟩ ∧
    insertKV "Basic ZGVycDpmbGVycA==".data "1.2.3.4".data emptyDB
      "Basic Basic ZGVycDpmbGVycA==".data =
      emptyDB "Basic Basic ZGVycDpmbGVycA==".data := by
  have h := c1_raw_header_keying "Basic ZGVycDpmbGVycA==".data
    "Basic Basic ZGVycDpmbGVycA==".data "1.2.3.4".data
    "1.2.3.4".data "1.2.3.4".data emptyDB
  exact ⟨h.1, h.2.2.2 (by decide)⟩

/-- C2 (counterexample): the round-trip law fails for a user string with
leading whitespace even though it contains no `':'`: for `user = " a"`,
`password = "b"`, decoding the encoding trims the whitespace and returns the
different Identity `a:b`. -/
theorem c2_counterexample :
    (':' ∉ " a".data) ∧ (':' ∉ "b".data) ∧
    fromBasic (Id.new " a".data "b".data).basic =
      .ok (Id.new "a".data "b".data) ∧
    Id.new "a".data "b".data ≠ Id.new " a".data "b".data := by
  refine ⟨by decide, by decide, ?_, by decide⟩
  decide

/-- C2 (amended): for every Identity built from a user and a password that
contain no `':'` and whose combined `user:password` form is unchanged by
Rust's `trim` (no leading or trailing whitespace), decode is a left inverse
of encode: `from_basic (basic (Id::new u p)) = Id::new u p`. -/
theorem c2_roundtrip (u p : Str) (hu : ':' ∉ u) (hp : ':' ∉ p)
    (ht : rustTrim (u ++ ':' :: p) = u ++ ':' :: p) :
    fromBasic (Id.new u p).basic = .ok (Id.new u p) :=
  fromBasic_basic u p hu hp ht

/-- C2 (witness): the round trip at the concrete Identity `derp:flerp`. -/
theorem c2_witness :
    fromBasic (Id.new "derp".data "flerp".data).basic =
      .ok (Id.new "derp".data "flerp".data) :=
  c2_roundtrip "derp".data "flerp".data (by decide) (by decide) (by decide)

/-- C4 (confirmed): `TryFrom<&str>` parsing succeeds iff the string contains
exactly one `':'`; `":a"` gives an empty user, `"a:"` an empty password, and
`"a"`, `""`, `":a:"` are rejected. -/
theorem c4_parsing_totality :
    (∀ s : Str, (tryFromStr s).isSome = true ↔ countColon s = 1) ∧
    tryFromStr ":a".data = some (Id.new "".data "a".data) ∧
    tryFromStr "a:".data = some (Id.new "a".data "".data) ∧
    tryFromStr "a".data = none ∧
    tryFromStr "".data = none ∧
    tryFromStr ":a:".data = none := by
  refine ⟨?_, by decide, by decide, by decide, by decide, by decide⟩
  intro s
  have hne := splitColon_ne_nil (rustTrim s)
  have hlen := splitColon_length (rustTrim s)
  rw [countColon_rustTrim] at hlen
  unfold tryFromStr
  rcases hsp : splitColon (rustTrim s) with _ | ⟨u, _ | ⟨p, _ | ⟨q, r⟩⟩⟩
  · exact absurd hsp hne
  · rw [hsp] at hlen
    simp at hlen ⊢
    omega
  · rw [hsp] at hlen
    simp at hlen ⊢
    omega
  · rw [hsp] at hlen
    simp at hlen ⊢
    omega

/-- C5 (counterexample): with the shared key `derp:flerp` configured, a
Publish presenting the header `"Basic Basic ZGVycDpmbGVycA=="` — which
decodes to exactly the key Identity `derp:flerp` — is rejected as
`Unauthorized`, because the gate compares raw header strings, not decoded
Identities. -/
theorem c5_counterexample :
    fromBasic (mkKey "derp:flerp".data) =
      .ok (Id.new "derp".data "flerp".data) ∧
    fromBasic "Basic Basic ZGVycDpmbGVycA==".data =
      .ok (Id.new "derp".data "flerp".data) ∧
    (postRoute "1.2.3.4".data "Basic Basic ZGVycDpmbGVycA==".data
      (some (mkKey "derp:flerp".data)) emptyDB true).result =
      .error .Unauthorized := by
  refine ⟨by decide, by decide, ?_⟩
  decide

/-- C5 (amended): with a shared key configured, a Publish succeeds exactly
when the raw `authorization` header equals the canonical encoding
`"Basic " ++ base64(key)` of the key; that request stores the forwarded
address.  Every other header — including one that decodes to the same key
Identity — is rejected with `Unauthorized` and the registry is returned
unchanged. -/
theorem c5_key_gate (raw ip h : Str) (db : DB) :
    (postRoute ip (mkKey raw) (some (mkKey raw)) db true).result = .ok ip ∧
    (postRoute ip (mkKey raw) (some (mkKey raw)) db true).db =
      insertKV (mkKey raw) ip db ∧
    (h ≠ mkKey raw →
      postRoute ip h (some (mkKey raw)) db true = ⟨.error .Unauthorized, db⟩) := by
  refine ⟨by simp [postRoute], by simp [postRoute], ?_⟩
  intro hne
  unfold postRoute
  rw [if_pos ⟨rfl, by simpa using Ne.symm hne⟩]

/-- C5 (witness): the key gate at the concrete key `derp:flerp`, accepting
its canonical header and rejecting the header `"x"`. -/
theorem c5_witness :
    (postRoute "1.2.3.4".data (mkKey "derp:flerp".data)
      (some (mkKey "derp:flerp".data)) emptyDB true).result =
      .ok "1.2.3.4".data ∧
    postRoute "1.2.3.4".data "x".data (some (mkKey "derp:flerp".data))
      emptyDB true = ⟨.error .Unauthorized, emptyDB⟩ := by
  have h := c5_key_gate "derp:flerp".data "1.2.3.4".data "x".data emptyDB
  exact ⟨h.1, h.2.2 (by decide)⟩

/-- C6 (counterexample): a successful Revoke with the header
`"Basic ZGVycDpmbGVycA=="` (Identity `derp:flerp`) answers
`"IP deleted for ID: Basic ZGVycDpmbGVycA=="` — the raw header, not the
canonical `user:password` form `derp:flerp` claimed by the spec. -/
theorem c6_counterexample :
    fromBasic "Basic ZGVycDpmbGVycA==".data =
      .ok (Id.new "derp".data "flerp".data) ∧
    (Id.new "derp".data "flerp".data).display = "derp:flerp".data ∧
    (deleteRoute "Basic ZGVycDpmbGVycA==".data
      (insertKV "Basic ZGVycDpmbGVycA==".data "1.2.3.4".data emptyDB)
      true).result = .ok "IP deleted for ID: Basic ZGVycDpmbGVycA==".data ∧
    "IP deleted for ID: Basic ZGVycDpmbGVycA==".data ≠
      ("IP deleted for ID: ".data ++ (Id.new "derp".data "flerp".data).display)
    := by
  refine ⟨by decide, by decide, ?_, by decide⟩
  decide

/-- C6 (amended): for every successful Revoke, the response body is the
string `"IP deleted for ID: "` followed by the raw `authorization` header
value under which the address was stored (not the decoded `user:password`
form). -/
theorem c6_delete_body (id ip : Str) (db : DB) (h : db id = some ip) :
    (deleteRoute id db true).result = .ok ("IP deleted for ID: ".data ++ id) := by
  simp [deleteRoute, h]

/-- C6 (witness): the amended Revoke body at a concrete stored header. -/
theorem c6_witness :
    (deleteRoute "Basic ZGVycDpmbGVycA==".data
      (insertKV "Basic ZGVycDpmbGVycA==".data "1.2.3.4".data emptyDB)
      true).result =
      .ok ("IP deleted for ID: ".data ++ "Basic ZGVycDpmbGVycA==".data) :=
  c6_delete_body "Basic ZGVycDpmbGVycA==".data "1.2.3.4".data
    (insertKV "Basic ZGVycDpmbGVycA==".data "1.2.3.4".data emptyDB) (by decide)

/-- C7 (confirmed): for Identities built by the public constructors (all of
which go through `Id::new`), equality holds iff the `user` and `password`
fields agree, and the derived `encoded` field never distinguishes two
Identities with equal `user` and `password`. -/
theorem c7_field_equality (i1 i2 : Id) (h1 : ∃ u p, i1 = Id.new u p)
    (h2 : ∃ u p, i2 = Id.new u p) :
    (i1 = i2 ↔ i1.user = i2.user ∧ i1.password = i2.password) ∧
    (i1.user = i2.user → i1.password = i2.password → i1.encoded = i2.encoded)
    := by
  obtain ⟨u1, p1, rfl⟩ := h1
  obtain ⟨u2, p2, rfl⟩ := h2
  constructor
  · constructor
    · intro h
      exact ⟨congrArg Id.user h, congrArg Id.password h⟩
    · rintro ⟨hu, hp⟩
      have hu2 : u1 = u2 := hu
      have hp2 : p1 = p2 := hp
      rw [show Id.new u1 p1 = Id.new u2 p2 from by rw [hu2, hp2]]
  · intro hu hp
    have hu2 : u1 = u2 := hu
    have hp2 : p1 = p2 := hp
    show (Id.new u1 p1).encoded = (Id.new u2 p2).encoded
    rw [hu2, hp2]

/-- C7 (witness): field-determined equality at two concrete constructed
Identities. -/
theorem c7_witness :
    (Id.new "a".data "b".data = Id.new "a".data "bb".data ↔
      (Id.new "a".data "b".data).user = (Id.new "a".data "bb".data).user ∧
      (Id.new "a".data "b".data).password =
        (Id.new "a".data "bb".data).password) ∧
    ((Id.new "a".data "b".data).user = (Id.new "a".data "bb".data).user →
      (Id.new "a".data "b".data).password =
        (Id.new "a".data "bb".data).password →
      (Id.new "a".data "b".data).encoded =
        (Id.new "a".data "bb".data).encoded) :=
  c7_field_equality _ _ ⟨"a".data, "b".data, rfl⟩ ⟨"a".data, "bb".data, rfl⟩

/-- C8 (confirmed): when the mutex is poisoned every route surfaces `Err::Db`
(the storage fault) without touching the registry; `handle_err` maps it to
status 500, distinct from `NotFound` and its 404 response — a lock fault is
never reported as empty or not-found. -/
theorem c8_lock_fault (id ip : Str) (db : DB) :
    getRoute id db false = .error .Db ∧
    (postRoute ip id none db false).result = .error .Db ∧
    (postRoute ip id none db false).db = db ∧
    (postRoute ip id (some id) db false).result = .error .Db ∧
    (deleteRoute id db false).result = .error .Db ∧
    (deleteRoute id db false).db = db ∧
    (handleErr .Db).1 = 500 ∧ (handleErr .NotFound).1 = 404 ∧
    Err.Db ≠ Err.NotFound ∧ handleErr .Db ≠ handleErr .NotFound := by
  refine ⟨rfl, ?_, ?_, ?_, rfl, rfl, rfl, rfl, by decide, by decide⟩
  · simp [postRoute]
  · simp [postRoute]
  · simp [postRoute]

/-- C9 (counterexample): Fetch performs no decoding of the authorization
header.  The header `"!!!"` fails to decode (the codec would panic on it),
yet Fetch neither rejects it nor signals any `DecodeError`-like condition: on
an empty registry it reports `NotFound`, and once an address is stored under
that raw header Fetch happily returns it. -/
theorem c9_counterexample :
    fromBasic "!!!".data = .panic "base64 decode error" ∧
    getRoute "!!!".data emptyDB true = .error .NotFound ∧
    getRoute "!!!".data (insertKV "!!!".data "1.2.3.4".data emptyDB) true =
      .ok "1.2.3.4".data := by
  refine ⟨by decide, rfl, ?_⟩
  decide

/-- C9 (amended): Fetch uses the raw `authorization` header directly as the
registry key without decoding it: whenever an address is stored under that
raw header — decodable or not — the Fetch succeeds with it; when no address
is stored it signals `NotFound`; `NotFound` is the only error Fetch signals
under an acquired lock; and the server's error taxonomy has no `DecodeError`
member at all, only `Db`, `NotFound` and `Unauthorized`. -/
theorem c9_no_decode_gate (h : Str) (db : DB) :
    (∀ ip, db h = some ip → getRoute h db true = .ok ip) ∧
    (db h = none → getRoute h db true = .error .NotFound) ∧
    (∀ e, getRoute h db true = .error e → e = .NotFound) ∧
    (∀ e : Err, e = .Db ∨ e = .NotFound ∨ e = .Unauthorized) := by
  refine ⟨?_, ?_, ?_, ?_⟩
  · intro ip hip
    simp [getRoute, hip]
  · intro hn
    simp [getRoute, hn]
  · intro e he
    unfold getRoute at he
    rcases hd : db h with _ | ip
    · rw [hd] at he
      simp at he
      exact he.symm
    · rw [hd] at he
      simp at he
  · intro e
    cases e
    · exact Or.inl rfl
    · exact Or.inr (Or.inl rfl)
    · exact Or.inr (Or.inr rfl)

/-- C9 (witness): Fetch succeeds on the stored but undecodable raw header
`"!!!"` and signals `NotFound` for the same header on the empty registry. -/
theorem c9_witness :
    getRoute "!!!".data (insertKV "!!!".data "1.2.3.4".data emptyDB) true =
      .ok "1.2.3.4".data ∧
    getRoute "!!!".data emptyDB true = .error .NotFound :=
  ⟨(c9_no_decode_gate "!!!".data
      (insertKV "!!!".data "1.2.3.4".data emptyDB)).1 "1.2.3.4".data
      (by decide),
   (c9_no_decode_gate "!!!".data emptyDB).2.1 rfl⟩

/-- C10 (counterexample): prefixing `"Basic "` is not neutral for every
string: for `s = " Basic ZGVycDpmbGVycA=="`, decoding `s` succeeds with the
Identity `derp:flerp`, while decoding `"Basic " ++ s` panics — the stripping
happens after an initial trim, so the leading-whitespace copy of the token
survives inside the string and poisons the base64 payload. -/
theorem c10_counterexample :
    fromBasic " Basic ZGVycDpmbGVycA==".data =
      .ok (Id.new "derp".data "flerp".data) ∧
    fromBasic ("Basic ".data ++ " Basic ZGVycDpmbGVycA==".data) =
      .panic "base64 decode error" := by
  constructor
  · decide
  · decide

/-- C10 (amended): for every header string starting with a non-whitespace
character, prefixing one `"Basic "` scheme token leaves the decode result
unchanged; hence all leading repetitions of `"Basic "` are stripped and a
bare base64 token with no scheme prefix is accepted. -/
theorem c10_scheme_stripping (c : Char) (t : Str)
    (hc : rustIsWhitespace c = false) :
    fromBasic ("Basic ".data ++ c :: t) = fromBasic (c :: t) :=
  fromBasic_strip c t hc

/-- C10 (witness): stripping the scheme token in front of the bare token
`"ZGVycDpmbGVycA=="`. -/
theorem c10_witness :
    fromBasic ("Basic ".data ++ 'Z' :: "GVycDpmbGVycA==".data) =
      fromBasic ('Z' :: "GVycDpmbGVycA==".data) :=
  c10_scheme_stripping 'Z' "GVycDpmbGVycA==".data (by decide)

end D5
